import Mathlib

/-!
Shallow embedding of the keyboard-drums core: the trigger ring channel
(src/ring.rs), the real-time audio callback (src/audio.rs), and the input
dispatcher with kit cycling and batch forwarding (src/input.rs), over the
data model of src/samples.rs.

Modelling conventions:
* Rust `f32` values are modelled as exact rationals (`ℚ`); the properties
  under study concern the algebraic structure of the mixing arithmetic, not
  floating-point rounding.
* Machine integers (`u8`, `u16`, `usize`) are modelled as `Nat`.  The one
  truncation the code performs (`sample_index as u8` in src/input.rs) is made
  explicit as `% 256`.  `usize::saturating_sub` is `Nat` subtraction.
* The mutable output buffer of the callback is modelled as a `List ℚ` of the
  buffer's length; the callback zeroes it before mixing, so its prior
  contents are irrelevant.
* In-place voice mutation is modelled by returning the updated voice list.
-/

namespace KeyboardDrums

/-- src/ring.rs `Trigger`: message from the input thread to the audio thread.
`sample_id` is a `u8` (modelled as its `Nat` value), `velocity` an `f32`. -/
structure Trigger where
  sample_id : Nat
  velocity : ℚ
deriving DecidableEq, Repr

/-- src/samples.rs `SampleData`: interleaved frame buffer plus channel count
and sample rate. -/
structure SampleData where
  data : List ℚ
  channels : Nat
  sample_rate : Nat
deriving DecidableEq, Repr

/-- src/samples.rs `SampleData::num_frames`. -/
def SampleData.num_frames (s : SampleData) : Nat :=
  if s.channels = 0 then 0 else s.data.length / s.channels

/-- src/samples.rs `SampleBank`: samples and per-sample gains indexed by
`sample_id`, plus diagnostic names. -/
structure SampleBank where
  samples : List SampleData
  sample_gains : List ℚ
  kit_name : String
  variant_name : String
deriving DecidableEq, Repr

/-- src/audio.rs `Voice`: an in-flight playback.  `sample_data` is the
voice's own share of the sample buffer, captured at spawn time (the Rust
code clones the `Arc`; sharing is modelled by value since the data is
immutable). -/
structure Voice where
  sample_id : Nat
  position : Nat
  gain : ℚ
  sample_data : SampleData
deriving DecidableEq, Repr

/-! ### Trigger ring channel (src/ring.rs) -/

/-- src/ring.rs `RING_BUFFER_SIZE`. -/
def RING_BUFFER_SIZE : Nat := 128

/-- Modelled from the spec: the backing SPSC queue of src/ring.rs comes from
the external `ringbuf` crate, whose code is not part of this repository.
Per spec section 4.1 it is a bounded FIFO of capacity `RING_BUFFER_SIZE`;
its state is the sequence of undelivered triggers in send order. -/
structure TriggerRb where
  buf : List Trigger
deriving DecidableEq, Repr

/-- src/ring.rs `TriggerProducer::send`: `try_push` enqueues the trigger and
returns `true` when a slot is free, otherwise drops it and returns `false`
(the producer-side log line has no observable effect on the state). -/
def send (q : TriggerRb) (t : Trigger) : TriggerRb × Bool :=
  if q.buf.length < RING_BUFFER_SIZE then (⟨q.buf ++ [t]⟩, true) else (q, false)

/-- src/ring.rs `TriggerConsumer::drain`: clears `out`, then pops every
currently queued trigger in FIFO order; returns the drained sequence and the
emptied queue. -/
def drain (q : TriggerRb) : List Trigger × TriggerRb := (q.buf, ⟨[]⟩)

/-- A sequence of `send` calls, returning the final queue state and the
result of each send in order. -/
def sendAll (q : TriggerRb) : List Trigger → TriggerRb × List Bool
  | [] => (q, [])
  | t :: rest =>
    let step := send q t
    let next := sendAll step.1 rest
    (next.1, step.2 :: next.2)

/-! ### Audio callback (src/audio.rs `audio_callback`) -/

/-- src/audio.rs lines 227-231: voice stealing.  `available` uses
`saturating_sub`; when the drained triggers do not fit and voices exist, the
front `min(trigger_buf.len() - available, voices.len())` voices are removed
in one bulk drain. -/
def stealPhase (voices : List Voice) (nTriggers maxVoices : Nat) : List Voice :=
  let available := maxVoices - voices.length
  if available < nTriggers ∧ voices ≠ [] then
    voices.drop (min (nTriggers - available) voices.length)
  else
    voices

/-- src/audio.rs lines 249-256: the voice pushed for one trigger.  The
per-sample gain is `bank.sample_gains.get(sid).copied().unwrap_or(1.0)`, the
combined gain `per_sample_gain * velocity * master_volume`, the position 0,
and the sample data the voice's own share of `bank.samples[sid]` (the code
indexes only after checking `sid < bank.samples.len()`, so the `getD`
default is never used). -/
def spawnVoice (bank : SampleBank) (masterVolume : ℚ) (t : Trigger) : Voice :=
  { sample_id := t.sample_id,
    position := 0,
    gain := bank.sample_gains.getD t.sample_id 1 * t.velocity * masterVolume,
    sample_data := bank.samples.getD t.sample_id ⟨[], 0, 0⟩ }

/-- src/audio.rs lines 236-259: spawn one voice per drained trigger while
slots remain; out-of-range `sample_id`s are skipped. -/
def spawnLoop (bank : SampleBank) (masterVolume : ℚ) :
    List Trigger → Nat → List Voice → List Voice
  | [], _, voices => voices
  | t :: rest, slotsRemaining, voices =>
    if slotsRemaining = 0 then voices
    else if bank.samples.length ≤ t.sample_id then
      spawnLoop bank masterVolume rest slotsRemaining voices
    else
      spawnLoop bank masterVolume rest (slotsRemaining - 1)
        (voices ++ [spawnVoice bank masterVolume t])

/-- src/audio.rs lines 218-260: the whole trigger-processing block.  It runs
only when the drain produced at least one trigger; it loads the bank once,
steals, then spawns with `slots_remaining = max_voices.saturating_sub(len)`. -/
def voicesAfterTriggers (triggers : List Trigger) (voices : List Voice)
    (bank : SampleBank) (masterVolume : ℚ) (maxVoices : Nat) : List Voice :=
  if triggers = [] then voices
  else
    let afterSteal := stealPhase voices triggers.length maxVoices
    spawnLoop bank masterVolume triggers (maxVoices - afterSteal.length) afterSteal

/-- src/audio.rs lines 303-305: one guarded read-accumulate-write of the mix
loop.  When either index is out of range the write is skipped and the buffer
is unchanged. -/
def mixWrite (data : List ℚ) (sdata : List ℚ) (g : ℚ) (srcIdx dstIdx : Nat) :
    List ℚ :=
  if srcIdx < sdata.length ∧ dstIdx < data.length then
    data.set dstIdx (data.getD dstIdx 0 + sdata.getD srcIdx 0 * g)
  else
    data

/-- src/audio.rs lines 290-306: the channel loop `for ch in 0..output_channels`
for a fixed frame.  `mixChAux ... k` performs the writes for channels
`0, …, k-1`; the loop itself is `k = oc`.  The source channel is `0` for mono,
`min ch (channels - 1)` otherwise. -/
def mixChAux (sdata : List ℚ) (sch : Nat) (g : ℚ) (oc frame srcOff : Nat) :
    Nat → List ℚ → List ℚ
  | 0, data => data
  | k + 1, data =>
    let srcCh := if sch = 1 then 0 else min k (sch - 1)
    mixWrite (mixChAux sdata sch g oc frame srcOff k data) sdata g
      (srcOff + srcCh) (frame * oc + k)

/-- src/audio.rs lines 286-307: the frame loop `for frame in 0..frames_to_mix`
of one voice starting at position `p`; `mixFramesAux ... n` mixes frames
`0, …, n-1`, each via the channel loop with `src_offset = (p + frame) * sch`. -/
def mixFramesAux (sdata : List ℚ) (sch : Nat) (g : ℚ) (oc p : Nat) :
    Nat → List ℚ → List ℚ
  | 0, data => data
  | n + 1, data =>
    mixChAux sdata sch g oc n ((p + n) * sch) oc (mixFramesAux sdata sch g oc p n data)

/-- Rust `Vec::swap_remove(i)`: the last element is moved into slot `i` and
the vector shrinks by one. -/
def swapRemove (l : List Voice) (i : Nat) : List Voice :=
  match l.getLast? with
  | none => l
  | some x => (l.set i x).dropLast

/-- src/audio.rs lines 270-317: the mix loop.  `fuel` is an embedding device
for the `while i < voices.len()` loop: every iteration decreases
`voices.len() - i` by exactly one (a `swap_remove` shrinks the list, otherwise
`i` advances), so calling with `fuel = voices.len() - i` runs the loop to
completion; `audio_callback` passes `fuel = voices.len()` at `i = 0`.  A
voice whose position reached its last frame is removed; otherwise
`min(num_frames, sample_frames - position)` frames are mixed, the position
advances, and a finished voice is removed. -/
def mixLoopGo (numFrames oc : Nat) : Nat → List Voice → Nat → List ℚ → List Voice × List ℚ
  | 0, voices, _, data => (voices, data)
  | fuel + 1, voices, i, data =>
    if h : i < voices.length then
      let voice := voices.get ⟨i, h⟩
      let s := voice.sample_data
      let sframes := s.num_frames
      if sframes ≤ voice.position then
        mixLoopGo numFrames oc fuel (swapRemove voices i) i data
      else
        let framesToMix := min numFrames (sframes - voice.position)
        let data1 := mixFramesAux s.data s.channels voice.gain oc voice.position framesToMix data
        let newPos := voice.position + framesToMix
        if sframes ≤ newPos then
          mixLoopGo numFrames oc fuel (swapRemove voices i) i data1
        else
          mixLoopGo numFrames oc fuel (voices.set i { voice with position := newPos }) (i + 1) data1
    else (voices, data)

/-- src/audio.rs lines 319-322 via Rust `f32::clamp(-1.0, 1.0)`. -/
def clampQ (x : ℚ) : ℚ :=
  if x < -1 then -1 else if 1 < x then 1 else x

/-- src/audio.rs lines 204-323 `audio_callback`, given the already drained
trigger sequence: process triggers, zero the buffer, mix with
`num_frames = data.len() / output_channels`, clamp.  Returns the updated
voice list and the written output buffer. -/
def audio_callback (dataLen outputChannels : Nat) (triggers : List Trigger)
    (voices : List Voice) (bank : SampleBank) (masterVolume : ℚ)
    (maxVoices : Nat) : List Voice × List ℚ :=
  let voices1 := voicesAfterTriggers triggers voices bank masterVolume maxVoices
  let data0 : List ℚ := List.replicate dataLen 0
  let numFrames := dataLen / outputChannels
  let mixed := mixLoopGo numFrames outputChannels voices1.length voices1 0 data0
  (mixed.1, mixed.2.map clampQ)

/-! ### Input dispatcher (src/input.rs) -/

/-- An evdev input event as consumed by src/input.rs: event-type class,
16-bit code, and signed value (0 = up, 1 = down, 2 = repeat for KEY). -/
structure InputEvent where
  ev_type : Nat
  code : Nat
  value : Int
deriving DecidableEq, Repr

/-- evdev `EventType::SYNCHRONIZATION` (EV_SYN). -/
def EV_SYN : Nat := 0

/-- evdev `EventType::KEY` (EV_KEY). -/
def EV_KEY : Nat := 1

/-- evdev `EventType::MISC` (EV_MSC), the scancode companion events. -/
def EV_MSC : Nat := 4

/-- src/input.rs lines 296-334 `forward_batch`.  The `HashSet<u16>` of
suppressed codes is modelled as a list with membership.  Returns `some`
of the event sequence handed to `virtual_device.emit`, or `none` when the
function returns without emitting (empty batch, fully suppressed batch, or
orphaned companions). -/
def forward_batch (batch : List InputEvent) (suppressed : List Nat) :
    Option (List InputEvent) :=
  if batch = [] then none
  else
    let fwd := batch.filter fun ev => !(ev.ev_type == EV_KEY && suppressed.contains ev.code)
    if fwd = [] then none
    else
      let has_key_event := fwd.any fun ev => ev.ev_type == EV_KEY
      let original_had_key := batch.any fun ev => ev.ev_type == EV_KEY
      if original_had_key ∧ ¬ has_key_event then none
      else some fwd

/-- src/config.rs `ResolvedCyclingKeys`: the four optional cycling codes. -/
structure ResolvedCyclingKeys where
  next_kit : Option Nat
  prev_kit : Option Nat
  next_variant : Option Nat
  prev_variant : Option Nat
deriving DecidableEq, Repr

/-- src/samples.rs `KitInfo`: a kit and its ordered variant names. -/
structure KitInfo where
  name : String
  variants : List String
deriving DecidableEq, Repr

/-- src/samples.rs `KitLibrary`.  The filesystem root (`samples_dir`) is
omitted: it only affects which files `load_bank` reads, never the selection
arithmetic. -/
structure KitLibrary where
  kits : List KitInfo
  sample_names : List String
  sample_gains : List ℚ
deriving DecidableEq, Repr

/-- src/samples.rs `KitLibrary::kit_count`. -/
def KitLibrary.kit_count (l : KitLibrary) : Nat := l.kits.length

/-- src/samples.rs `KitLibrary::variant_count`. -/
def KitLibrary.variant_count (l : KitLibrary) (kit_index : Nat) : Nat :=
  ((l.kits.get? kit_index).map fun k => k.variants.length).getD 0

/-- src/input.rs `KitState`: current kit/variant selection.  The
`sample_bank` cell is omitted: `reload` only publishes a freshly loaded
bank there and never touches the indices, so the selection arithmetic of
`cycle_kit`/`cycle_variant` is fully captured by the two indices. -/
structure KitState where
  library : KitLibrary
  kit_index : Nat
  variant_index : Nat
deriving DecidableEq, Repr

/-- src/input.rs lines 30-46 `KitState::cycle_kit`: advance the kit index
with wraparound and reset the variant to the first; no-op when there are no
kits. -/
def KitState.cycle_kit (s : KitState) (forward : Bool) : KitState :=
  let count := s.library.kit_count
  if count = 0 then s
  else
    { s with
      kit_index :=
        if forward then (s.kit_index + 1) % count
        else (s.kit_index + count - 1) % count,
      variant_index := 0 }

/-- src/input.rs lines 48-62 `KitState::cycle_variant`: advance the variant
index within the current kit with wraparound; no-op when the kit has no
variants. -/
def KitState.cycle_variant (s : KitState) (forward : Bool) : KitState :=
  let count := s.library.variant_count s.kit_index
  if count = 0 then s
  else
    { s with
      variant_index :=
        if forward then (s.variant_index + 1) % count
        else (s.variant_index + count - 1) % count }

/-- src/input.rs `KeyMap` lookup: `HashMap<u16, (usize, f32)>` modelled as a
partial map from key code to (sample_index, gain). -/
def KeyMap : Type := Nat → Option (Nat × ℚ)

/-- src/input.rs lines 340-397 `handle_event`.  Returns the kit state after
the event and the trigger sent to the ring producer, if any.  Non-KEY
events and non-key-down values are ignored; cycling codes take priority
over sample bindings; a matched binding sends
`Trigger { sample_id: sample_index as u8, velocity: gain }`, the `as u8`
truncation being `% 256`. -/
def handle_event (event : InputEvent) (key_map : KeyMap)
    (cycling_keys : ResolvedCyclingKeys) (kit_state : KitState) :
    KitState × Option Trigger :=
  if event.ev_type ≠ EV_KEY then (kit_state, none)
  else if event.value ≠ 1 then (kit_state, none)
  else
    let code := event.code
    if cycling_keys.next_kit = some code then (kit_state.cycle_kit true, none)
    else if cycling_keys.prev_kit = some code then (kit_state.cycle_kit false, none)
    else if cycling_keys.next_variant = some code then (kit_state.cycle_variant true, none)
    else if cycling_keys.prev_variant = some code then (kit_state.cycle_variant false, none)
    else
      match key_map code with
      | some idxGain =>
        (kit_state, some { sample_id := idxGain.1 % 256, velocity := idxGain.2 })
      | none => (kit_state, none)

/-! ### Length and shape lemmas for the mix loop -/

lemma mixWrite_length (d s : List ℚ) (g : ℚ) (si di : Nat) :
    (mixWrite d s g si di).length = d.length := by
  unfold mixWrite; split <;> simp

lemma mixChAux_length (sdata : List ℚ) (sch : Nat) (g : ℚ) (oc frame srcOff : Nat) :
    ∀ (k : Nat) (data : List ℚ),
      (mixChAux sdata sch g oc frame srcOff k data).length = data.length := by
  intro k
  induction k with
  | zero => intro data; rfl
  | succ k ih => intro data; simp only [mixChAux, mixWrite_length]; exact ih data

lemma mixFramesAux_length (sdata : List ℚ) (sch : Nat) (g : ℚ) (oc p : Nat) :
    ∀ (n : Nat) (data : List ℚ),
      (mixFramesAux sdata sch g oc p n data).length = data.length := by
  intro n
  induction n with
  | zero => intro data; rfl
  | succ n ih =>
    intro data
    simp only [mixFramesAux, mixChAux_length]
    exact ih data

lemma swapRemove_length (l : List Voice) (i : Nat) :
    (swapRemove l i).length = l.length - 1 := by
  cases h : l.getLast? with
  | none => simp [swapRemove, h, List.getLast?_eq_none_iff.mp h]
  | some x => simp [swapRemove, h]

lemma mixLoopGo_snd_length (nf oc : Nat) :
    ∀ (fuel : Nat) (voices : List Voice) (i : Nat) (data : List ℚ),
      ((mixLoopGo nf oc fuel voices i data).2).length = data.length := by
  intro fuel
  induction fuel with
  | zero => intro voices i data; rfl
  | succ fuel ih =>
    intro voices i data
    simp only [mixLoopGo]
    split
    · split
      · exact ih ..
      · split
        · rw [ih, mixFramesAux_length]
        · rw [ih, mixFramesAux_length]
    · rfl

lemma mixLoopGo_fst_length_le (nf oc : Nat) :
    ∀ (fuel : Nat) (voices : List Voice) (i : Nat) (data : List ℚ),
      ((mixLoopGo nf oc fuel voices i data).1).length ≤ voices.length := by
  intro fuel
  induction fuel with
  | zero => intro voices i data; exact Nat.le_refl _
  | succ fuel ih =>
    intro voices i data
    simp only [mixLoopGo]
    split
    · split
      · calc ((mixLoopGo nf oc fuel (swapRemove voices i) i data).1).length
            ≤ (swapRemove voices i).length := ih ..
          _ ≤ voices.length := by rw [swapRemove_length]; omega
      · split
        · calc ((mixLoopGo nf oc fuel (swapRemove voices i) i _).1).length
              ≤ (swapRemove voices i).length := ih ..
            _ ≤ voices.length := by rw [swapRemove_length]; omega
        · calc _ ≤ (voices.set i _).length := ih ..
            _ = voices.length := List.length_set ..
    · exact Nat.le_refl _

lemma stealPhase_length_le (voices : List Voice) (nTriggers maxVoices : Nat) :
    (stealPhase voices nTriggers maxVoices).length ≤ voices.length := by
  simp only [stealPhase]
  split
  · simp
  · exact Nat.le_refl _

lemma spawnLoop_length_le (bank : SampleBank) (m : ℚ) :
    ∀ (ts : List Trigger) (slots : Nat) (voices : List Voice),
      (spawnLoop bank m ts slots voices).length ≤ voices.length + slots := by
  intro ts
  induction ts with
  | nil => intro slots voices; exact Nat.le_add_right ..
  | cons t rest ih =>
    intro slots voices
    simp only [spawnLoop]
    split
    · exact Nat.le_add_right ..
    · split
      · exact ih slots voices
      · calc (spawnLoop bank m rest (slots - 1) (voices ++ [spawnVoice bank m t])).length
            ≤ (voices ++ [spawnVoice bank m t]).length + (slots - 1) := ih ..
          _ ≤ voices.length + slots := by
              simp only [List.length_append, List.length_cons, List.length_nil]
              omega

lemma voicesAfterTriggers_length_le (triggers : List Trigger) (voices : List Voice)
    (bank : SampleBank) (m : ℚ) (maxVoices : Nat)
    (h : voices.length ≤ maxVoices) :
    (voicesAfterTriggers triggers voices bank m maxVoices).length ≤ maxVoices := by
  simp only [voicesAfterTriggers]
  split
  · exact h
  · have h1 := stealPhase_length_le voices triggers.length maxVoices
    have h2 := spawnLoop_length_le bank m triggers
      (maxVoices - (stealPhase voices triggers.length maxVoices).length)
      (stealPhase voices triggers.length maxVoices)
    omega

/-- C2: if `voices.len() ≤ max_voices` holds when the audio callback is
entered, it still holds when the callback returns, for every drained trigger
sequence and every output buffer size.  The spawn loop never pushes beyond
`slots_remaining` and the mix loop only removes voices. -/
theorem c2_voice_cap_preserved (dataLen outputChannels : Nat)
    (triggers : List Trigger) (voices : List Voice) (bank : SampleBank)
    (masterVolume : ℚ) (maxVoices : Nat)
    (h : voices.length ≤ maxVoices) :
    ((audio_callback dataLen outputChannels triggers voices bank masterVolume
        maxVoices).1).length ≤ maxVoices := by
  unfold audio_callback
  exact Nat.le_trans (mixLoopGo_fst_length_le ..)
    (voicesAfterTriggers_length_le triggers voices bank masterVolume maxVoices h)

/-- Witness for C2 at a concrete input: two voices already playing, four
triggers, `max_voices = 2`. -/
theorem c2_voice_cap_preserved_witness :
    ([(⟨0, 0, 1, ⟨[1], 1, 48000⟩⟩ : Voice), ⟨0, 0, 1, ⟨[1], 1, 48000⟩⟩].length ≤ 2)
    ∧ ((audio_callback 8 2 [⟨0, 1⟩, ⟨0, 1⟩, ⟨0, 1⟩, ⟨0, 1⟩]
          [⟨0, 0, 1, ⟨[1], 1, 48000⟩⟩, ⟨0, 0, 1, ⟨[1], 1, 48000⟩⟩]
          ⟨[⟨[1, 1, 1], 1, 48000⟩], [1], "k", "v"⟩ 1 2).1).length ≤ 2 :=
  ⟨by simp, c2_voice_cap_preserved 8 2 _ _ _ 1 2 (by simp)⟩

lemma clampQ_bounds (x : ℚ) : -1 ≤ clampQ x ∧ clampQ x ≤ 1 := by
  unfold clampQ
  split_ifs <;> constructor <;> linarith

/-- C5: every sample the callback leaves in the output buffer lies in
[-1, 1], for any number of voices and any sample data: the final pass maps
`clamp(-1.0, 1.0)` over the whole buffer. -/
theorem c5_output_clamped (dataLen outputChannels : Nat)
    (triggers : List Trigger) (voices : List Voice) (bank : SampleBank)
    (masterVolume : ℚ) (maxVoices : Nat) (s : ℚ)
    (hs : s ∈ (audio_callback dataLen outputChannels triggers voices bank
        masterVolume maxVoices).2) :
    -1 ≤ s ∧ s ≤ 1 := by
  unfold audio_callback at hs
  rcases List.mem_map.mp hs with ⟨x, -, rfl⟩
  exact clampQ_bounds x

lemma c5_witness_mem :
    ((audio_callback 2 2 [⟨0, 1⟩, ⟨0, 1⟩, ⟨0, 1⟩] []
        ⟨[⟨[9/10], 1, 48000⟩], [1], "k", "v"⟩ 1 32).2).getD 0 0 ∈
      (audio_callback 2 2 [⟨0, 1⟩, ⟨0, 1⟩, ⟨0, 1⟩] []
        ⟨[⟨[9/10], 1, 48000⟩], [1], "k", "v"⟩ 1 32).2 := by
  have hlen : ((audio_callback 2 2 [⟨0, 1⟩, ⟨0, 1⟩, ⟨0, 1⟩] []
      ⟨[⟨[9/10], 1, 48000⟩], [1], "k", "v"⟩ 1 32).2).length = 2 := by
    unfold audio_callback
    simp only [List.length_map, mixLoopGo_snd_length, List.length_replicate]
  rw [List.getD_eq_getElem?_getD, List.getElem?_eq_getElem (by omega)]
  exact List.getElem_mem ..

/-- Witness for C5: three stacked triggers on a 0.9-valued sample; the first
output sample of the callback lies in [-1, 1]. -/
theorem c5_output_clamped_witness :
    ((audio_callback 2 2 [⟨0, 1⟩, ⟨0, 1⟩, ⟨0, 1⟩] []
        ⟨[⟨[9/10], 1, 48000⟩], [1], "k", "v"⟩ 1 32).2).getD 0 0 ∈
      (audio_callback 2 2 [⟨0, 1⟩, ⟨0, 1⟩, ⟨0, 1⟩] []
        ⟨[⟨[9/10], 1, 48000⟩], [1], "k", "v"⟩ 1 32).2
    ∧ (-1 ≤ ((audio_callback 2 2 [⟨0, 1⟩, ⟨0, 1⟩, ⟨0, 1⟩] []
        ⟨[⟨[9/10], 1, 48000⟩], [1], "k", "v"⟩ 1 32).2).getD 0 0
      ∧ ((audio_callback 2 2 [⟨0, 1⟩, ⟨0, 1⟩, ⟨0, 1⟩] []
        ⟨[⟨[9/10], 1, 48000⟩], [1], "k", "v"⟩ 1 32).2).getD 0 0 ≤ 1) :=
  ⟨c5_witness_mem, c5_output_clamped 2 2 _ _ _ 1 32 _ c5_witness_mem⟩

/-- C9: the mix loop is bounds-guarded.  First conjunct: for every input —
including sample buffers whose length is not a multiple of the channel
count and output buffers whose length is not a multiple of the output
channel count — the callback is total and returns an output buffer of
exactly the requested length.  Second conjunct: a mix-loop store whose
source or destination index is out of range leaves the buffer untouched
(the read/write is silently skipped). -/
theorem c9_mix_bounds_guarded :
    (∀ (dataLen outputChannels : Nat) (triggers : List Trigger)
        (voices : List Voice) (bank : SampleBank) (masterVolume : ℚ)
        (maxVoices : Nat),
        ((audio_callback dataLen outputChannels triggers voices bank
            masterVolume maxVoices).2).length = dataLen)
    ∧ ∀ (d s : List ℚ) (g : ℚ) (si di : Nat),
        ¬(si < s.length ∧ di < d.length) → mixWrite d s g si di = d := by
  constructor
  · intro dataLen outputChannels triggers voices bank masterVolume maxVoices
    unfold audio_callback
    simp only [List.length_map, mixLoopGo_snd_length, List.length_replicate]
  · intro d s g si di h
    unfold mixWrite
    rw [if_neg h]

/-- Witness for C9: a ragged 3-element stereo sample is mixed without
indexing out of range, and an out-of-range store is a no-op. -/
theorem c9_mix_bounds_guarded_witness :
    ((audio_callback 6 2 [⟨0, 1⟩] [] ⟨[⟨[1/4, 1/3, 1/5], 2, 48000⟩], [1], "k", "v"⟩
        1 32).2).length = 6
    ∧ ¬((0 : Nat) < ([] : List ℚ).length ∧ (0 : Nat) < ([(0 : ℚ)] : List ℚ).length)
    ∧ mixWrite [(0 : ℚ)] [] 1 0 0 = [(0 : ℚ)] :=
  ⟨c9_mix_bounds_guarded.1 6 2 _ _ _ 1 32, by decide,
   c9_mix_bounds_guarded.2 [(0 : ℚ)] [] 1 0 0 (by decide)⟩

lemma spawnLoop_take (bank : SampleBank) (m : ℚ) :
    ∀ (ts : List Trigger) (slots : Nat) (voices : List Voice),
      (spawnLoop bank m ts slots voices).take voices.length = voices := by
  intro ts
  induction ts with
  | nil => intro slots voices; exact List.take_length voices
  | cons t rest ih =>
    intro slots voices
    simp only [spawnLoop]
    split
    · exact List.take_length voices
    · split
      · exact ih slots voices
      · have h1 := ih (slots - 1) (voices ++ [spawnVoice bank m t])
        rw [List.length_append, List.length_cons, List.length_nil] at h1
        have h2 : voices.length = min voices.length (voices.length + (0 + 1)) := by omega
        rw [h2, ← List.take_take, h1, List.take_left]

/-- C6: a bank store between two callbacks does not change what the voices
already in flight contribute.  First conjunct: with no newly drained
triggers, the callback's result — surviving voices and written output — is
the same for any two banks, because each voice carries its own sample-data
share and gain.  Second conjunct: even when triggers are drained, the
voices that survive stealing are kept unchanged (as a prefix) no matter
which bank the spawn phase reads. -/
theorem c6_bank_swap_no_effect_on_voices (dataLen outputChannels : Nat)
    (voices : List Voice) (bank bank' : SampleBank) (masterVolume : ℚ)
    (maxVoices : Nat) :
    audio_callback dataLen outputChannels [] voices bank masterVolume maxVoices
      = audio_callback dataLen outputChannels [] voices bank' masterVolume maxVoices
    ∧ ∀ triggers : List Trigger,
        (voicesAfterTriggers triggers voices bank masterVolume maxVoices).take
            (stealPhase voices triggers.length maxVoices).length
          = stealPhase voices triggers.length maxVoices := by
  constructor
  · unfold audio_callback voicesAfterTriggers
    simp
  · intro triggers
    unfold voicesAfterTriggers
    split
    · next ht =>
      subst ht
      have hs : stealPhase voices 0 maxVoices = voices := by
        unfold stealPhase
        simp
      simp only [List.length_nil, hs, List.take_length]
    · exact spawnLoop_take ..

/-- C1: with at least one drained trigger and the entry invariant
`voices.len() ≤ max_voices` (established by C2 from an initially empty voice
list), the stealing step removes exactly the front
`min(want - max_voices, have)` voices in one bulk removal when
`want = have + triggers.len() > max_voices`, and removes nothing otherwise;
the spawn loop then runs on the stolen-from list. -/
theorem c1_voice_steal_bulk_front (voices : List Voice) (triggers : List Trigger)
    (bank : SampleBank) (masterVolume : ℚ) (maxVoices : Nat)
    (ht : triggers ≠ []) (hlen : voices.length ≤ maxVoices) :
    stealPhase voices triggers.length maxVoices
      = (if maxVoices < voices.length + triggers.length then
          voices.drop (min (voices.length + triggers.length - maxVoices) voices.length)
        else voices)
    ∧ voicesAfterTriggers triggers voices bank masterVolume maxVoices
        = spawnLoop bank masterVolume triggers
            (maxVoices - (stealPhase voices triggers.length maxVoices).length)
            (stealPhase voices triggers.length maxVoices) := by
  constructor
  · simp only [stealPhase]
    by_cases hv : voices = []
    · subst hv
      simp
    · rcases Nat.lt_or_ge maxVoices (voices.length + triggers.length) with hw | hw
      · rw [if_pos ⟨by omega, hv⟩, if_pos hw]
        have harg : triggers.length - (maxVoices - voices.length)
            = voices.length + triggers.length - maxVoices := by omega
        rw [harg]
      · rw [if_neg ?_, if_neg (by omega)]
        rintro ⟨hc, -⟩
        omega
  · unfold voicesAfterTriggers
    rw [if_neg ht]

/-- Witness for C1: two playing voices, three triggers, `max_voices = 3`:
`want = 5 > 3`, so the front `min(2, 2) = 2` voices are removed. -/
theorem c1_voice_steal_bulk_front_witness :
    ([(⟨0, 1⟩ : Trigger), ⟨0, 1⟩, ⟨0, 1⟩] ≠ [])
    ∧ ([(⟨0, 0, 1, ⟨[1], 1, 48000⟩⟩ : Voice), ⟨1, 2, 1, ⟨[1], 1, 48000⟩⟩].length ≤ 3)
    ∧ (stealPhase [(⟨0, 0, 1, ⟨[1], 1, 48000⟩⟩ : Voice), ⟨1, 2, 1, ⟨[1], 1, 48000⟩⟩]
          [(⟨0, 1⟩ : Trigger), ⟨0, 1⟩, ⟨0, 1⟩].length 3
        = (if 3 < [(⟨0, 0, 1, ⟨[1], 1, 48000⟩⟩ : Voice), ⟨1, 2, 1, ⟨[1], 1, 48000⟩⟩].length
                + [(⟨0, 1⟩ : Trigger), ⟨0, 1⟩, ⟨0, 1⟩].length then
            List.drop (min ([(⟨0, 0, 1, ⟨[1], 1, 48000⟩⟩ : Voice), ⟨1, 2, 1, ⟨[1], 1, 48000⟩⟩].length
                + [(⟨0, 1⟩ : Trigger), ⟨0, 1⟩, ⟨0, 1⟩].length - 3)
                [(⟨0, 0, 1, ⟨[1], 1, 48000⟩⟩ : Voice), ⟨1, 2, 1, ⟨[1], 1, 48000⟩⟩].length)
              [(⟨0, 0, 1, ⟨[1], 1, 48000⟩⟩ : Voice), ⟨1, 2, 1, ⟨[1], 1, 48000⟩⟩]
          else [(⟨0, 0, 1, ⟨[1], 1, 48000⟩⟩ : Voice), ⟨1, 2, 1, ⟨[1], 1, 48000⟩⟩])
      ∧ voicesAfterTriggers [(⟨0, 1⟩ : Trigger), ⟨0, 1⟩, ⟨0, 1⟩]
            [(⟨0, 0, 1, ⟨[1], 1, 48000⟩⟩ : Voice), ⟨1, 2, 1, ⟨[1], 1, 48000⟩⟩]
            ⟨[⟨[1], 1, 48000⟩], [1], "k", "v"⟩ 1 3
          = spawnLoop ⟨[⟨[1], 1, 48000⟩], [1], "k", "v"⟩ 1
              [(⟨0, 1⟩ : Trigger), ⟨0, 1⟩, ⟨0, 1⟩]
              (3 - (stealPhase [(⟨0, 0, 1, ⟨[1], 1, 48000⟩⟩ : Voice), ⟨1, 2, 1, ⟨[1], 1, 48000⟩⟩]
                  [(⟨0, 1⟩ : Trigger), ⟨0, 1⟩, ⟨0, 1⟩].length 3).length)
              (stealPhase [(⟨0, 0, 1, ⟨[1], 1, 48000⟩⟩ : Voice), ⟨1, 2, 1, ⟨[1], 1, 48000⟩⟩]
                  [(⟨0, 1⟩ : Trigger), ⟨0, 1⟩, ⟨0, 1⟩].length 3)) :=
  ⟨by decide, by decide,
   c1_voice_steal_bulk_front _ _ ⟨[⟨[1], 1, 48000⟩], [1], "k", "v"⟩ 1 3
     (by decide) (by decide)⟩

/-! ### Ring channel lemmas -/

lemma map_decide_lt_range' :
    ∀ (n s : Nat), RING_BUFFER_SIZE ≤ s →
      (List.range' s n).map (fun i => decide (i < RING_BUFFER_SIZE))
        = List.replicate n false := by
  intro n
  induction n with
  | zero => intro s _; rfl
  | succ n ih =>
    intro s hs
    rw [List.range'_succ, List.map_cons, List.replicate_succ, ih (s + 1) (by omega)]
    simp [Nat.not_lt.mpr hs]

lemma sendAll_spec :
    ∀ (ts : List Trigger) (q : TriggerRb), q.buf.length ≤ RING_BUFFER_SIZE →
      (sendAll q ts).1.buf = q.buf ++ ts.take (RING_BUFFER_SIZE - q.buf.length)
      ∧ (sendAll q ts).2
          = (List.range' q.buf.length ts.length).map
              (fun i => decide (i < RING_BUFFER_SIZE)) := by
  intro ts
  induction ts with
  | nil => intro q _; exact ⟨by simp [sendAll], by simp [sendAll]⟩
  | cons t rest ih =>
    intro q hq
    by_cases h : q.buf.length < RING_BUFFER_SIZE
    · have hsend1 : (send q t).1 = ⟨q.buf ++ [t]⟩ := by simp [send, h]
      have hsend2 : (send q t).2 = true := by simp [send, h]
      have hq1 : (TriggerRb.mk (q.buf ++ [t])).buf.length ≤ RING_BUFFER_SIZE := by
        simp only [List.length_append, List.length_cons, List.length_nil]
        omega
      obtain ⟨ih1, ih2⟩ := ih ⟨q.buf ++ [t]⟩ hq1
      have htake : (t :: rest).take (RING_BUFFER_SIZE - q.buf.length)
          = t :: rest.take (RING_BUFFER_SIZE - (q.buf.length + 1)) := by
        have hr : RING_BUFFER_SIZE - q.buf.length
            = (RING_BUFFER_SIZE - (q.buf.length + 1)) + 1 := by omega
        rw [hr, List.take_succ_cons]
      constructor
      · simp only [sendAll, hsend1, ih1, htake]
        simp
      · simp only [sendAll, hsend1, hsend2, ih2, List.length_cons,
          List.length_append, List.length_nil]
        rw [List.range'_succ, List.map_cons]
        simp [h]
    · have hlen : q.buf.length = RING_BUFFER_SIZE := by omega
      have hsend1 : (send q t).1 = q := by simp [send, h]
      have hsend2 : (send q t).2 = false := by simp [send, h]
      obtain ⟨ih1, ih2⟩ := ih q hq
      constructor
      · simp only [sendAll, hsend1, ih1, hlen]
        simp
      · simp only [sendAll, hsend1, hsend2, ih2, List.length_cons]
        rw [List.range'_succ, List.map_cons,
          map_decide_lt_range' rest.length (q.buf.length + 1) (by omega),
          map_decide_lt_range' rest.length q.buf.length (by omega)]
        simp [hlen]

/-- C4: starting from the empty channel, a sequence of `send` calls followed
by one `drain` yields exactly the accepted prefix.  First conjunct: the
drained sequence is the first `RING_BUFFER_SIZE = 128` triggers in send
order (so sending 130 triggers and draining once yields exactly the first
128).  Second conjunct: the i-th `send` returns `true` exactly for
`i < 128`, so the drained sequence is precisely the triggers whose send
returned `true`, in order.  Third conjunct: the next `send` returns `false`
exactly when the queue already holds 128 undelivered triggers. -/
theorem c4_ring_fifo_capacity (ts : List Trigger) :
    (drain (sendAll ⟨[]⟩ ts).1).1 = ts.take RING_BUFFER_SIZE
    ∧ (sendAll ⟨[]⟩ ts).2
        = (List.range ts.length).map (fun i => decide (i < RING_BUFFER_SIZE))
    ∧ ∀ t : Trigger,
        ((send (sendAll ⟨[]⟩ ts).1 t).2 = false
          ↔ (sendAll ⟨[]⟩ ts).1.buf.length = RING_BUFFER_SIZE) := by
  obtain ⟨h1, h2⟩ := sendAll_spec ts ⟨[]⟩ (by simp)
  refine ⟨?_, ?_, ?_⟩
  · show (sendAll ⟨[]⟩ ts).1.buf = ts.take RING_BUFFER_SIZE
    rw [h1]
    simp
  · rw [h2, List.range_eq_range']
    rfl
  · intro t
    have hlen : (sendAll ⟨[]⟩ ts).1.buf.length ≤ RING_BUFFER_SIZE := by
      rw [h1]
      simp only [List.nil_append, List.length_take]
      omega
    have hsend : (send (sendAll ⟨[]⟩ ts).1 t).2 = false
        ↔ ¬((sendAll ⟨[]⟩ ts).1.buf.length < RING_BUFFER_SIZE) := by
      simp only [send]
      split
      · simp_all
      · simp_all
    rw [hsend]
    omega

/-! ### Batch forwarding (C7) -/

/-- C7 counterexample: a nonempty batch with no KEY event at all — so every
KEY event in it vacuously has a suppressed code — is forwarded, not dropped:
`forward_batch` only drops companion-only batches when the original batch
contained a KEY event.  The claim as stated therefore fails on a batch
holding a single non-KEY event. -/
theorem c7_batch_suppression_counterexample :
    (∀ ev ∈ ([⟨EV_MSC, 4, 0⟩] : List InputEvent),
      ev.ev_type = EV_KEY → ev.code ∈ [30])
    ∧ forward_batch [⟨EV_MSC, 4, 0⟩] [30] = some [⟨EV_MSC, 4, 0⟩] := by
  constructor
  · decide
  · decide

/-- C7 (amended): for every batch containing at least one KEY event, if every
KEY event of the batch has a suppressed code then zero events of the batch —
companions included — are forwarded; and if at least one KEY event is not
suppressed, the filtered batch (suppressed KEY events removed) is
forwarded. -/
theorem c7_batch_suppression (batch : List InputEvent) (suppressed : List Nat) :
    ((∃ ev ∈ batch, ev.ev_type = EV_KEY)
        ∧ (∀ ev ∈ batch, ev.ev_type = EV_KEY → ev.code ∈ suppressed) →
      forward_batch batch suppressed = none)
    ∧ ((∃ ev ∈ batch, ev.ev_type = EV_KEY ∧ ev.code ∉ suppressed) →
      forward_batch batch suppressed
        = some (batch.filter
            fun ev => !(ev.ev_type == EV_KEY && suppressed.contains ev.code))) := by
  constructor
  · rintro ⟨⟨ev, hev, hkey⟩, hall⟩
    have hb : batch ≠ [] := by
      rintro rfl
      exact (List.not_mem_nil ev) hev
    simp only [forward_batch, if_neg hb]
    by_cases hf : (batch.filter
        fun e => !(e.ev_type == EV_KEY && suppressed.contains e.code)) = []
    · rw [if_pos hf]
    · rw [if_neg hf, if_pos ?_]
      constructor
      · simp only [List.any_eq_true, beq_iff_eq]
        exact ⟨ev, hev, hkey⟩
      · simp only [List.any_eq_true, beq_iff_eq, not_exists]
        rintro ev' ⟨hmem', hkey'⟩
        rcases List.mem_filter.mp hmem' with ⟨hb', hp'⟩
        have hsup' : ev'.code ∈ suppressed := hall ev' hb' hkey'
        simp [hkey', hsup'] at hp'
  · rintro ⟨ev, hev, hkey, hnsup⟩
    have hb : batch ≠ [] := by
      rintro rfl
      exact (List.not_mem_nil ev) hev
    have hpred : (fun e : InputEvent =>
        !(e.ev_type == EV_KEY && suppressed.contains e.code)) ev = true := by
      simp [hkey, hnsup]
    have hmem : ev ∈ batch.filter
        fun e => !(e.ev_type == EV_KEY && suppressed.contains e.code) :=
      List.mem_filter.mpr ⟨hev, hpred⟩
    have hf : (batch.filter
        fun e => !(e.ev_type == EV_KEY && suppressed.contains e.code)) ≠ [] := by
      intro h
      rw [h] at hmem
      exact (List.not_mem_nil ev) hmem
    simp only [forward_batch, if_neg hb, if_neg hf]
    rw [if_neg ?_]
    rintro ⟨-, hno⟩
    apply hno
    simp only [List.any_eq_true, beq_iff_eq]
    exact ⟨ev, hmem, hkey⟩

/-- Witness for the amended C7: a suppressed KEY batch with its scancode
companion is dropped entirely; a batch with an unsuppressed KEY event is
forwarded filtered. -/
theorem c7_batch_suppression_witness :
    forward_batch [⟨EV_MSC, 4, 0⟩, ⟨EV_KEY, 30, 1⟩] [30] = none
    ∧ forward_batch [⟨EV_MSC, 4, 0⟩, ⟨EV_KEY, 30, 1⟩, ⟨EV_KEY, 48, 1⟩] [30]
        = some (([⟨EV_MSC, 4, 0⟩, ⟨EV_KEY, 30, 1⟩, ⟨EV_KEY, 48, 1⟩] : List InputEvent).filter
            fun ev => !(ev.ev_type == EV_KEY && ([30] : List Nat).contains ev.code)) :=
  ⟨(c7_batch_suppression [⟨EV_MSC, 4, 0⟩, ⟨EV_KEY, 30, 1⟩] [30]).1 (by decide),
   (c7_batch_suppression [⟨EV_MSC, 4, 0⟩, ⟨EV_KEY, 30, 1⟩, ⟨EV_KEY, 48, 1⟩] [30]).2
     (by decide)⟩


/-! ### Kit and variant cycling (C8) -/

lemma mod_cycle_back (v c : Nat) (h : v < c) : ((v + 1) % c + c - 1) % c = v := by
  rcases Nat.lt_or_ge (v + 1) c with h1 | h1
  · rw [Nat.mod_eq_of_lt h1]
    have h2 : v + 1 + c - 1 = v + c := by omega
    rw [h2, Nat.add_mod_right, Nat.mod_eq_of_lt h]
  · have h2 : v + 1 = c := by omega
    rw [h2, Nat.mod_self]
    have h3 : 0 + c - 1 = c - 1 := by omega
    rw [h3, Nat.mod_eq_of_lt (by omega)]
    omega

lemma iterate_left_inverse {α : Type} (f g : α → α) (P : α → Prop)
    (hf : ∀ a, P a → P (f a)) (hgf : ∀ a, P a → g (f a) = a) :
    ∀ (n : Nat) (a : α), P a → g^[n] (f^[n] a) = a := by
  intro n
  induction n with
  | zero => intro a _; rfl
  | succ n ih =>
    intro a ha
    rw [Function.iterate_succ_apply f n a, Function.iterate_succ_apply' g n,
      ih (f a) (hf a ha), hgf a ha]

lemma cycle_variant_good (s : KitState)
    (h : s.variant_index < s.library.variant_count s.kit_index
       ∨ s.library.variant_count s.kit_index = 0) :
    ((s.cycle_variant true).variant_index
        < (s.cycle_variant true).library.variant_count (s.cycle_variant true).kit_index
      ∨ (s.cycle_variant true).library.variant_count (s.cycle_variant true).kit_index = 0) := by
  obtain ⟨lib, k, v⟩ := s
  rcases h with h | h
  · have hv : v < lib.variant_count k := h
    have hc : ¬ lib.variant_count k = 0 := by omega
    simp only [KitState.cycle_variant, if_neg hc, reduceIte]
    exact Or.inl (Nat.mod_lt _ (by omega))
  · have hc : lib.variant_count k = 0 := h
    simp only [KitState.cycle_variant, if_pos hc]
    exact Or.inr hc

lemma cycle_variant_back_forward (s : KitState)
    (h : s.variant_index < s.library.variant_count s.kit_index
       ∨ s.library.variant_count s.kit_index = 0) :
    (s.cycle_variant true).cycle_variant false = s := by
  obtain ⟨lib, k, v⟩ := s
  rcases h with h | h
  · have hv : v < lib.variant_count k := h
    have hc : ¬ lib.variant_count k = 0 := by omega
    simp only [KitState.cycle_variant, if_neg hc, reduceIte]
    exact congrArg (KitState.mk lib k) (mod_cycle_back v _ hv)
  · have hc : lib.variant_count k = 0 := h
    simp only [KitState.cycle_variant, if_pos hc]

lemma cycle_kit_good (s : KitState)
    (h : s.kit_index < s.library.kit_count ∧ s.variant_index = 0) :
    ((s.cycle_kit true).kit_index < (s.cycle_kit true).library.kit_count
      ∧ (s.cycle_kit true).variant_index = 0) := by
  obtain ⟨lib, k, v⟩ := s
  have hk : k < lib.kit_count := h.1
  have hc : ¬ lib.kit_count = 0 := by omega
  simp only [KitState.cycle_kit, if_neg hc, reduceIte]
  exact ⟨Nat.mod_lt _ (by omega), trivial⟩

lemma cycle_kit_back_forward (s : KitState)
    (h : s.kit_index < s.library.kit_count ∧ s.variant_index = 0) :
    (s.cycle_kit true).cycle_kit false = s := by
  obtain ⟨lib, k, v⟩ := s
  have hk : k < lib.kit_count := h.1
  have hv : v = 0 := h.2
  have hc : ¬ lib.kit_count = 0 := by omega
  subst hv
  simp only [KitState.cycle_kit, if_neg hc, reduceIte]
  exact congrArg (fun j => KitState.mk lib j 0) (mod_cycle_back k _ hk)

/-- C8 counterexample: with one kit holding two variants, starting at
(kit 0, variant 1), cycling the kit forward once and then backward once does
not return to the same (kit, variant) pair: `cycle_kit` resets the variant
index to 0. -/
theorem c8_cycle_roundtrip_counterexample :
    (KitState.cycle_kit
        (KitState.cycle_kit ⟨⟨[⟨"a", ["x", "y"]⟩], [], []⟩, 0, 1⟩ true) false)
      ≠ (⟨⟨[⟨"a", ["x", "y"]⟩], [], []⟩, 0, 1⟩ : KitState) := by
  decide

/-- C8 (amended): for every selection state with in-range indices and every
count `n`, cycling the variant forward `n` times then backward `n` times
returns to the same (kit, variant) pair; cycling the kit forward `n` times
then backward `n` times returns to the same kit in the same library, but
with the variant reset to the first whenever `n ≥ 1` and at least one kit
exists — the full pair is restored only when `n = 0` or there are no
kits. -/
theorem c8_cycle_roundtrip (s : KitState) (n : Nat)
    (hv : s.variant_index < s.library.variant_count s.kit_index
        ∨ s.library.variant_count s.kit_index = 0)
    (hk : s.kit_index < s.library.kit_count ∨ s.library.kit_count = 0) :
    (fun st => KitState.cycle_variant st false)^[n]
        ((fun st => KitState.cycle_variant st true)^[n] s) = s
    ∧ (fun st => KitState.cycle_kit st false)^[n]
        ((fun st => KitState.cycle_kit st true)^[n] s)
      = (if n = 0 ∨ s.library.kit_count = 0 then s
         else ⟨s.library, s.kit_index, 0⟩) := by
  constructor
  · exact iterate_left_inverse _ _
      (fun st => st.variant_index < st.library.variant_count st.kit_index
        ∨ st.library.variant_count st.kit_index = 0)
      cycle_variant_good cycle_variant_back_forward n s hv
  · rcases hk with hk | hk
    · cases n with
      | zero => simp
      | succ m =>
        have hc : ¬ s.library.kit_count = 0 := by omega
        rw [if_neg (by simp [hc])]
        rw [Function.iterate_succ_apply (fun st => KitState.cycle_kit st true) m s,
          Function.iterate_succ_apply' (fun st => KitState.cycle_kit st false) m]
        have hgood : (s.cycle_kit true).kit_index
              < (s.cycle_kit true).library.kit_count
            ∧ (s.cycle_kit true).variant_index = 0 := by
          obtain ⟨lib, k, v⟩ := s
          have hc' : ¬ lib.kit_count = 0 := hc
          simp only [KitState.cycle_kit, if_neg hc', reduceIte]
          exact ⟨Nat.mod_lt _ (by omega), trivial⟩
        rw [iterate_left_inverse _ _
          (fun st => st.kit_index < st.library.kit_count ∧ st.variant_index = 0)
          cycle_kit_good cycle_kit_back_forward m (s.cycle_kit true) hgood]
        obtain ⟨lib, k, v⟩ := s
        have hk' : k < lib.kit_count := hk
        have hc' : ¬ lib.kit_count = 0 := hc
        simp only [KitState.cycle_kit, if_neg hc', reduceIte]
        exact congrArg (fun j => KitState.mk lib j 0) (mod_cycle_back k _ hk')
    · have hfixT : (fun st => KitState.cycle_kit st true) s = s := by
        simp [KitState.cycle_kit, hk]
      have hfixF : (fun st => KitState.cycle_kit st false) s = s := by
        simp [KitState.cycle_kit, hk]
      have hT : (fun st => KitState.cycle_kit st true)^[n] s = s :=
        Function.iterate_fixed hfixT n
      have hF : (fun st => KitState.cycle_kit st false)^[n] s = s :=
        Function.iterate_fixed hfixF n
      rw [if_pos (Or.inr hk), hT, hF]

/-- Witness for the amended C8: one kit with two variants, starting at
(kit 0, variant 1), cycled twice each way: the variant round trip restores
the state and the kit round trip lands on (kit 0, variant 0). -/
theorem c8_cycle_roundtrip_witness :
    ((⟨⟨[⟨"a", ["x", "y"]⟩], [], []⟩, 0, 1⟩ : KitState).variant_index
        < (⟨⟨[⟨"a", ["x", "y"]⟩], [], []⟩, 0, 1⟩ : KitState).library.variant_count
            (⟨⟨[⟨"a", ["x", "y"]⟩], [], []⟩, 0, 1⟩ : KitState).kit_index
      ∨ (⟨⟨[⟨"a", ["x", "y"]⟩], [], []⟩, 0, 1⟩ : KitState).library.variant_count
            (⟨⟨[⟨"a", ["x", "y"]⟩], [], []⟩, 0, 1⟩ : KitState).kit_index = 0)
    ∧ (fun st => KitState.cycle_variant st false)^[2]
          ((fun st => KitState.cycle_variant st true)^[2]
            (⟨⟨[⟨"a", ["x", "y"]⟩], [], []⟩, 0, 1⟩ : KitState))
        = (⟨⟨[⟨"a", ["x", "y"]⟩], [], []⟩, 0, 1⟩ : KitState)
    ∧ (fun st => KitState.cycle_kit st false)^[2]
          ((fun st => KitState.cycle_kit st true)^[2]
            (⟨⟨[⟨"a", ["x", "y"]⟩], [], []⟩, 0, 1⟩ : KitState))
        = (⟨⟨[⟨"a", ["x", "y"]⟩], [], []⟩, 0, 0⟩ : KitState) := by
  have h := c8_cycle_roundtrip ⟨⟨[⟨"a", ["x", "y"]⟩], [], []⟩, 0, 1⟩ 2
    (by decide) (by decide)
  have h2 := h.2
  rw [if_neg (by decide)] at h2
  exact ⟨by decide, h.1, h2⟩

/-! ### Trigger truncation (C10) -/

/-- C10: on a key-down whose code is bound in the key map and is not a
cycling code, `handle_event` sends exactly one trigger whose `sample_id`
is the binding's `sample_index` truncated to 8 bits (`as u8`, i.e.
`% 256`), with the binding's gain as velocity; a `sample_index ≥ 256`
therefore addresses slot `sample_index % 256` instead of being rejected. -/
theorem c10_sample_id_truncation (event : InputEvent) (key_map : KeyMap)
    (cycling_keys : ResolvedCyclingKeys) (kit_state : KitState)
    (sample_index : Nat) (gain : ℚ)
    (htype : event.ev_type = EV_KEY) (hval : event.value = 1)
    (h1 : cycling_keys.next_kit ≠ some event.code)
    (h2 : cycling_keys.prev_kit ≠ some event.code)
    (h3 : cycling_keys.next_variant ≠ some event.code)
    (h4 : cycling_keys.prev_variant ≠ some event.code)
    (hbind : key_map event.code = some (sample_index, gain)) :
    (handle_event event key_map cycling_keys kit_state).2
      = some { sample_id := sample_index % 256, velocity := gain } := by
  simp only [handle_event, htype, hval, h1, h2, h3, h4, hbind]
  simp

/-- Witness for C10: key code 30 bound to sample index 300 sends a trigger
for slot 300 % 256 = 44. -/
theorem c10_sample_id_truncation_witness :
    ((⟨EV_KEY, 30, 1⟩ : InputEvent).ev_type = EV_KEY
      ∧ (⟨EV_KEY, 30, 1⟩ : InputEvent).value = 1
      ∧ (⟨none, none, none, none⟩ : ResolvedCyclingKeys).next_kit ≠ some 30
      ∧ (fun c => if c = 30 then some ((300 : Nat), (1 : ℚ)) else none) 30
          = some (300, 1))
    ∧ (handle_event ⟨EV_KEY, 30, 1⟩
          (fun c => if c = 30 then some ((300 : Nat), (1 : ℚ)) else none)
          ⟨none, none, none, none⟩ ⟨⟨[], [], []⟩, 0, 0⟩).2
        = some { sample_id := 300 % 256, velocity := (1 : ℚ) } :=
  ⟨⟨rfl, rfl, by simp, by simp⟩,
   c10_sample_id_truncation ⟨EV_KEY, 30, 1⟩
     (fun c => if c = 30 then some ((300 : Nat), (1 : ℚ)) else none)
     ⟨none, none, none, none⟩ ⟨⟨[], [], []⟩, 0, 0⟩ 300 1
     rfl rfl (by simp) (by simp) (by simp) (by simp) (by simp)⟩

/-! ### Pointwise characterization of the mix loop (C3) -/

lemma getD_set_self (l : List ℚ) (i : Nat) (a : ℚ) (h : i < l.length) :
    (l.set i a).getD i 0 = a := by
  rw [List.getD_eq_getElem?_getD, List.getElem?_set_eq_of_lt a h]
  rfl

lemma getD_set_of_ne (l : List ℚ) (i j : Nat) (a : ℚ) (h : i ≠ j) :
    (l.set i a).getD j 0 = l.getD j 0 := by
  rw [List.getD_eq_getElem?_getD, List.getElem?_set_ne h,
    ← List.getD_eq_getElem?_getD]

lemma getD_replicate_zero (n j : Nat) : (List.replicate n (0 : ℚ)).getD j 0 = 0 := by
  rw [List.getD_eq_getElem?_getD]
  rcases Nat.lt_or_ge j n with h | h
  · simp [List.getElem?_replicate, h]
  · rw [List.getElem?_eq_none (by simpa using h)]
    rfl

lemma getD_map_clampQ (l : List ℚ) (j : Nat) (h : j < l.length) :
    (l.map clampQ).getD j 0 = clampQ (l.getD j 0) := by
  rw [List.getD_eq_getElem?_getD, List.getElem?_map, List.getElem?_eq_getElem h]
  rw [List.getD_eq_getElem?_getD, List.getElem?_eq_getElem h]
  rfl

lemma mixWrite_getD (d s : List ℚ) (g : ℚ) (si di j : Nat) :
    (mixWrite d s g si di).getD j 0 =
      if si < s.length ∧ di < d.length ∧ j = di
      then d.getD j 0 + s.getD si 0 * g
      else d.getD j 0 := by
  unfold mixWrite
  by_cases hg : si < s.length ∧ di < d.length
  · rw [if_pos hg]
    by_cases hj : j = di
    · subst hj
      rw [getD_set_self _ _ _ hg.2, if_pos ⟨hg.1, hg.2, rfl⟩]
    · rw [getD_set_of_ne _ _ _ _ (fun h => hj h.symm), if_neg (by tauto)]
  · rw [if_neg hg, if_neg (by tauto)]

lemma mixChAux_getD (sdata : List ℚ) (sch : Nat) (g : ℚ) (oc frame srcOff : Nat) :
    ∀ (k : Nat) (data : List ℚ) (j : Nat),
      (mixChAux sdata sch g oc frame srcOff k data).getD j 0 =
        data.getD j 0 +
          (if frame * oc ≤ j ∧ j < frame * oc + k ∧ j < data.length ∧
              srcOff + (if sch = 1 then 0 else min (j - frame * oc) (sch - 1))
                < sdata.length
           then sdata.getD
                  (srcOff + (if sch = 1 then 0 else min (j - frame * oc) (sch - 1))) 0
                * g
           else 0) := by
  intro k
  induction k with
  | zero =>
    intro data j
    rw [if_neg ?_]
    · simp [mixChAux]
    · rintro ⟨h1, h2, -⟩
      omega
  | succ k ih =>
    intro data j
    simp only [mixChAux, mixWrite_getD, mixChAux_length, ih data j]
    by_cases hj : j = frame * oc + k
    · subst hj
      have hck : ¬(frame * oc ≤ frame * oc + k ∧ frame * oc + k < frame * oc + k
          ∧ frame * oc + k < data.length ∧
          srcOff + (if sch = 1 then 0 else min (frame * oc + k - frame * oc) (sch - 1))
            < sdata.length) := by
        rintro ⟨-, h2, -⟩
        omega
      rw [if_neg hck]
      have hsub : frame * oc + k - frame * oc = k := by omega
      by_cases hA : srcOff + (if sch = 1 then 0 else min k (sch - 1)) < sdata.length
          ∧ frame * oc + k < data.length
      · have hfull : frame * oc ≤ frame * oc + k
            ∧ frame * oc + k < frame * oc + (k + 1)
            ∧ frame * oc + k < data.length ∧
            srcOff + (if sch = 1 then 0 else min (frame * oc + k - frame * oc) (sch - 1))
              < sdata.length := by
          refine ⟨by omega, by omega, hA.2, ?_⟩
          rw [hsub]
          exact hA.1
        rw [if_pos ⟨hA.1, hA.2, rfl⟩, if_pos hfull, hsub, add_zero]
      · have hnouter : ¬(srcOff + (if sch = 1 then 0 else min k (sch - 1)) < sdata.length
            ∧ frame * oc + k < data.length ∧ frame * oc + k = frame * oc + k) := by
          rintro ⟨h1, h2, -⟩
          exact hA ⟨h1, h2⟩
        have hnfull : ¬(frame * oc ≤ frame * oc + k
            ∧ frame * oc + k < frame * oc + (k + 1)
            ∧ frame * oc + k < data.length ∧
            srcOff + (if sch = 1 then 0 else min (frame * oc + k - frame * oc) (sch - 1))
              < sdata.length) := by
          rintro ⟨-, -, h3, h4⟩
          rw [hsub] at h4
          exact hA ⟨h4, h3⟩
        rw [if_neg hnouter, if_neg hnfull]
    · rw [if_neg (by tauto)]
      have hiff : (frame * oc ≤ j ∧ j < frame * oc + k ∧ j < data.length ∧
            srcOff + (if sch = 1 then 0 else min (j - frame * oc) (sch - 1))
              < sdata.length)
          ↔ (frame * oc ≤ j ∧ j < frame * oc + (k + 1) ∧ j < data.length ∧
            srcOff + (if sch = 1 then 0 else min (j - frame * oc) (sch - 1))
              < sdata.length) := by
        constructor
        · rintro ⟨h1, h2, h3, h4⟩
          exact ⟨h1, by omega, h3, h4⟩
        · rintro ⟨h1, h2, h3, h4⟩
          exact ⟨h1, by omega, h3, h4⟩
      rw [if_congr hiff rfl rfl]

lemma mixFramesAux_getD (sdata : List ℚ) (sch : Nat) (g : ℚ) (oc p : Nat) :
    ∀ (n : Nat) (data : List ℚ) (j : Nat),
      (mixFramesAux sdata sch g oc p n data).getD j 0 =
        data.getD j 0 +
          (if j < n * oc ∧ j < data.length ∧
              (p + j / oc) * sch + (if sch = 1 then 0 else min (j % oc) (sch - 1))
                < sdata.length
           then sdata.getD
                  ((p + j / oc) * sch
                    + (if sch = 1 then 0 else min (j % oc) (sch - 1))) 0 * g
           else 0) := by
  intro n
  induction n with
  | zero =>
    intro data j
    rw [if_neg (by rintro ⟨h1, -⟩; omega)]
    simp [mixFramesAux]
  | succ n ih =>
    intro data j
    simp only [mixFramesAux]
    rw [mixChAux_getD, ih data j, mixFramesAux_length]
    have hmul : (n + 1) * oc = n * oc + oc := Nat.succ_mul n oc
    by_cases h1 : j < n * oc
    · have hnch : ¬(n * oc ≤ j ∧ j < n * oc + oc ∧ j < data.length ∧
          (p + n) * sch + (if sch = 1 then 0 else min (j - n * oc) (sch - 1))
            < sdata.length) := by
        rintro ⟨hle, -⟩
        omega
      rw [if_neg hnch, add_zero]
      have hiff : (j < n * oc ∧ j < data.length ∧
            (p + j / oc) * sch + (if sch = 1 then 0 else min (j % oc) (sch - 1))
              < sdata.length)
          ↔ (j < (n + 1) * oc ∧ j < data.length ∧
            (p + j / oc) * sch + (if sch = 1 then 0 else min (j % oc) (sch - 1))
              < sdata.length) := by
        constructor
        · rintro ⟨ha, hb, hc⟩
          exact ⟨by omega, hb, hc⟩
        · rintro ⟨ha, hb, hc⟩
          exact ⟨h1, hb, hc⟩
      rw [if_congr hiff rfl rfl]
    · by_cases h2 : j < n * oc + oc
      · have hdiv : j / oc = n :=
          Nat.div_eq_of_lt_le (by omega) (by rw [Nat.succ_mul]; omega)
        have hmod : j % oc = j - n * oc := by
          have hdm := Nat.div_add_mod j oc
          rw [hdiv] at hdm
          have hc := Nat.mul_comm oc n
          omega
        have hFn : ¬(j < n * oc ∧ j < data.length ∧
            (p + j / oc) * sch + (if sch = 1 then 0 else min (j % oc) (sch - 1))
              < sdata.length) := by
          rintro ⟨ha, -⟩
          exact h1 ha
        rw [if_neg hFn, add_zero, hdiv, hmod]
        have hiff : (n * oc ≤ j ∧ j < n * oc + oc ∧ j < data.length ∧
              (p + n) * sch + (if sch = 1 then 0 else min (j - n * oc) (sch - 1))
                < sdata.length)
            ↔ (j < (n + 1) * oc ∧ j < data.length ∧
              (p + n) * sch + (if sch = 1 then 0 else min (j - n * oc) (sch - 1))
                < sdata.length) := by
          constructor
          · rintro ⟨-, hb, hc, hd⟩
            exact ⟨by omega, hc, hd⟩
          · rintro ⟨ha, hc, hd⟩
            exact ⟨by omega, h2, hc, hd⟩
        rw [if_congr hiff rfl rfl]
      · have hFn : ¬(j < n * oc ∧ j < data.length ∧
            (p + j / oc) * sch + (if sch = 1 then 0 else min (j % oc) (sch - 1))
              < sdata.length) := by
          rintro ⟨ha, -⟩
          exact h1 ha
        have hCH : ¬(n * oc ≤ j ∧ j < n * oc + oc ∧ j < data.length ∧
            (p + n) * sch + (if sch = 1 then 0 else min (j - n * oc) (sch - 1))
              < sdata.length) := by
          rintro ⟨-, hb, -⟩
          omega
        have hF1 : ¬(j < (n + 1) * oc ∧ j < data.length ∧
            (p + j / oc) * sch + (if sch = 1 then 0 else min (j % oc) (sch - 1))
              < sdata.length) := by
          rintro ⟨ha, -⟩
          omega
        rw [if_neg hFn, if_neg hCH, if_neg hF1, add_zero, add_zero]

lemma mixLoopGo_one_voice_snd (nf oc : Nat) (v : Voice) (data : List ℚ) :
    (mixLoopGo nf oc 1 [v] 0 data).2 =
      if v.sample_data.num_frames ≤ v.position then data
      else mixFramesAux v.sample_data.data v.sample_data.channels v.gain oc
        v.position (min nf (v.sample_data.num_frames - v.position)) data := by
  simp only [mixLoopGo]
  rw [dif_pos (show 0 < [v].length by simp)]
  simp only [List.get]
  by_cases hpos : v.sample_data.num_frames ≤ v.position
  · rw [if_pos hpos, if_pos hpos]
  · rw [if_neg hpos, if_neg hpos]
    by_cases hend : v.sample_data.num_frames
        ≤ v.position + min nf (v.sample_data.num_frames - v.position)
    · rw [if_pos hend]
    · rw [if_neg hend]

lemma voicesAfterTriggers_single (t : Trigger) (bank : SampleBank) (m : ℚ)
    (mx : Nat) (hmx : mx ≠ 0) (hsid : t.sample_id < bank.samples.length) :
    voicesAfterTriggers [t] [] bank m mx = [spawnVoice bank m t] := by
  unfold voicesAfterTriggers
  rw [if_neg (by simp)]
  have hsteal : stealPhase [] 1 mx = [] := by simp [stealPhase]
  simp only [List.length_cons, List.length_nil, hsteal, Nat.sub_zero, Nat.zero_add]
  simp only [spawnLoop]
  rw [if_neg hmx, if_neg (by omega)]
  simp [spawnLoop]

/-- C3: a single trigger with in-range `sample_id` and velocity `v`,
processed by a callback with no prior voices against a bank with parallel
sample and gain lists, writes at every buffer index the clamp of exactly
`source_sample * bank.sample_gains[sample_id] * v * master_volume` (and the
clamp of 0 at the indices its voice does not reach): the spawned voice's
gain is the triple product and the mix adds it onto a zeroed buffer. -/
theorem c3_single_trigger_contribution (dataLen oc : Nat) (t : Trigger)
    (bank : SampleBank) (masterVolume : ℚ) (maxVoices : Nat) (j : Nat)
    (hoc : 0 < oc) (hmx : 1 ≤ maxVoices)
    (_hlen : bank.sample_gains.length = bank.samples.length)
    (hsid : t.sample_id < bank.samples.length)
    (hj : j < dataLen) :
    ((audio_callback dataLen oc [t] [] bank masterVolume maxVoices).2).getD j 0
      = clampQ
          (if j / oc < min (dataLen / oc)
                (bank.samples.getD t.sample_id ⟨[], 0, 0⟩).num_frames
              ∧ (j / oc) * (bank.samples.getD t.sample_id ⟨[], 0, 0⟩).channels
                  + (if (bank.samples.getD t.sample_id ⟨[], 0, 0⟩).channels = 1
                     then 0
                     else min (j % oc)
                       ((bank.samples.getD t.sample_id ⟨[], 0, 0⟩).channels - 1))
                  < (bank.samples.getD t.sample_id ⟨[], 0, 0⟩).data.length
           then (bank.samples.getD t.sample_id ⟨[], 0, 0⟩).data.getD
                  ((j / oc) * (bank.samples.getD t.sample_id ⟨[], 0, 0⟩).channels
                    + (if (bank.samples.getD t.sample_id ⟨[], 0, 0⟩).channels = 1
                       then 0
                       else min (j % oc)
                         ((bank.samples.getD t.sample_id ⟨[], 0, 0⟩).channels - 1))) 0
                * (bank.sample_gains.getD t.sample_id 1 * t.velocity * masterVolume)
           else 0) := by
  unfold audio_callback
  rw [voicesAfterTriggers_single t bank masterVolume maxVoices (by omega) hsid]
  have hmlen : ((mixLoopGo (dataLen / oc) oc [spawnVoice bank masterVolume t].length
      [spawnVoice bank masterVolume t] 0 (List.replicate dataLen 0)).2).length
      = dataLen := by
    rw [mixLoopGo_snd_length, List.length_replicate]
  rw [getD_map_clampQ _ _ (by rw [hmlen]; exact hj)]
  congr 1
  have hlen1 : [spawnVoice bank masterVolume t].length = 1 := by simp
  rw [hlen1, mixLoopGo_one_voice_snd]
  simp only [spawnVoice]
  by_cases hframes : (bank.samples.getD t.sample_id ⟨[], 0, 0⟩).num_frames ≤ 0
  · have hcond : ¬(j / oc < min (dataLen / oc)
          (bank.samples.getD t.sample_id ⟨[], 0, 0⟩).num_frames
        ∧ (j / oc) * (bank.samples.getD t.sample_id ⟨[], 0, 0⟩).channels
            + (if (bank.samples.getD t.sample_id ⟨[], 0, 0⟩).channels = 1 then 0
               else min (j % oc)
                 ((bank.samples.getD t.sample_id ⟨[], 0, 0⟩).channels - 1))
            < (bank.samples.getD t.sample_id ⟨[], 0, 0⟩).data.length) := by
      rintro ⟨h1, -⟩
      have h2 : j / oc < (bank.samples.getD t.sample_id ⟨[], 0, 0⟩).num_frames :=
        lt_of_lt_of_le h1 (min_le_right _ _)
      exact absurd (Nat.lt_of_lt_of_le h2 hframes) (Nat.not_lt_zero _)
    rw [if_pos hframes, getD_replicate_zero, if_neg hcond]
  · rw [if_neg hframes, mixFramesAux_getD, getD_replicate_zero,
      List.length_replicate, zero_add]
    simp only [Nat.zero_add, Nat.sub_zero]
    have hiff : (j < min (dataLen / oc)
            (bank.samples.getD t.sample_id ⟨[], 0, 0⟩).num_frames * oc
          ∧ j < dataLen ∧
          (j / oc) * (bank.samples.getD t.sample_id ⟨[], 0, 0⟩).channels
            + (if (bank.samples.getD t.sample_id ⟨[], 0, 0⟩).channels = 1 then 0
               else min (j % oc)
                 ((bank.samples.getD t.sample_id ⟨[], 0, 0⟩).channels - 1))
            < (bank.samples.getD t.sample_id ⟨[], 0, 0⟩).data.length)
        ↔ (j / oc < min (dataLen / oc)
            (bank.samples.getD t.sample_id ⟨[], 0, 0⟩).num_frames
          ∧ (j / oc) * (bank.samples.getD t.sample_id ⟨[], 0, 0⟩).channels
            + (if (bank.samples.getD t.sample_id ⟨[], 0, 0⟩).channels = 1 then 0
               else min (j % oc)
                 ((bank.samples.getD t.sample_id ⟨[], 0, 0⟩).channels - 1))
            < (bank.samples.getD t.sample_id ⟨[], 0, 0⟩).data.length) := by
      constructor
      · rintro ⟨h1, -, h3⟩
        exact ⟨(Nat.div_lt_iff_lt_mul hoc).mpr h1, h3⟩
      · rintro ⟨h1, h3⟩
        exact ⟨(Nat.div_lt_iff_lt_mul hoc).mp h1, hj, h3⟩
    rw [if_congr hiff rfl rfl]

/-- Witness for C3: a two-frame 0.5-valued mono sample, one full-velocity
trigger, unit gains, stereo output of four samples: the first output sample
is exactly `0.5 * 1 * 1 * 1 = 0.5`. -/
theorem c3_single_trigger_contribution_witness :
    ((0 : Nat) < 2 ∧ (1 : Nat) ≤ 8
      ∧ (⟨[⟨[1/2, 1/2], 1, 48000⟩], [1], "k", "v"⟩ : SampleBank).sample_gains.length
          = (⟨[⟨[1/2, 1/2], 1, 48000⟩], [1], "k", "v"⟩ : SampleBank).samples.length
      ∧ (⟨0, 1⟩ : Trigger).sample_id
          < (⟨[⟨[1/2, 1/2], 1, 48000⟩], [1], "k", "v"⟩ : SampleBank).samples.length
      ∧ (0 : Nat) < 4)
    ∧ ((audio_callback 4 2 [⟨0, 1⟩] []
          ⟨[⟨[1/2, 1/2], 1, 48000⟩], [1], "k", "v"⟩ 1 8).2).getD 0 0 = 1 / 2 := by
  constructor
  · exact ⟨by decide, by decide, by decide, by decide, by decide⟩
  · have h := c3_single_trigger_contribution 4 2 ⟨0, 1⟩
      ⟨[⟨[1/2, 1/2], 1, 48000⟩], [1], "k", "v"⟩ 1 8 0
      (by decide) (by decide) (by decide) (by decide) (by decide)
    norm_num [List.getD, SampleData.num_frames, clampQ] at h
    exact h

end KeyboardDrums
